import Mathlib

/-!
Verification development for the "birdeye" wallet/buys proxy.

The repository is a cluster of near-duplicate Express proxy programs:
`src/index.js` contains two programs (the first at lines 1-226, the second at
lines 227-607), and `src/unnamed/part_000` contains two more (the relevant one,
its second program, implements `/buys` around lines 303-346).

Embedding conventions:
* JavaScript numbers are modeled as rationals (ℚ); `NaN`/`undefined` values are
  modeled with `Option`.  None of the verified properties depends on
  floating-point rounding: they are about control flow, membership, ordering
  and exact sums.
* JS objects holding prices (`out`, `priceMap`, `pmap`) are modeled as
  functions `String → Option ℚ`; JS `Map`s of metadata as
  `String → Option TokenMeta`.
* Network responses are inputs of the embedded functions: a provider response
  is the association list of entries of its parsed `data` object (`none`
  standing for a non-numeric/non-finite price field), and a failed request is
  modeled by the empty list, which updates nothing — exactly the effect of the
  corresponding `catch` branch.
* `String.trim` / `toLowerCase` are embedded structurally (`strTrim`,
  `strLower`) so that they evaluate inside the kernel.
-/

/-- JavaScript `String.prototype.trim`, embedded structurally over the
character list (whitespace stripped from both ends). -/
def strTrim (s : String) : String :=
  ⟨((s.data.dropWhile Char.isWhitespace).reverse.dropWhile Char.isWhitespace).reverse⟩

/-- JavaScript `String.prototype.toLowerCase`, embedded structurally over the
character list (sufficient for the ASCII side/type strings handled here). -/
def strLower (s : String) : String := ⟨s.data.map Char.toLower⟩

/-- A price mapping as built by `getPrices` (the `out` object of
src/index.js:342): a key that was never assigned maps to `none`. -/
def PriceMap : Type := String → Option ℚ

/-- The network environment of `getPrices` (src/index.js second program,
lines 340-389).  `jupResp c` is the parsed `data` object of the primary
(Jupiter) price response for a query on the chunk `c`, as an association list
`mint ↦ parsed price` (`none` models a price field on which `Number.isFinite`
fails); `beResp c` plays the same role for the secondary (Birdeye) response;
`beKey` tells whether the `BIRDEYE_API_KEY` credential is configured.  A
request that throws is modeled by an empty response list, which has exactly
the effect of the code's `catch` branch (no assignment to `out`). -/
structure PriceEnv where
  beKey : Bool
  jupResp : List String → List (String × Option ℚ)
  beResp : List String → List (String × Option ℚ)

/-- Lines 353-357 (`jup`): walk the response entries and record every finite
numeric price, overwriting unconditionally (`out[k] = px`). -/
def applyJup (out : PriceMap) : List (String × Option ℚ) → PriceMap
  | [] => out
  | (k, px) :: rest =>
      applyJup (match px with
        | some v => fun m => if m = k then some v else out m
        | none => out) rest

/-- Lines 371-376 (`birdeye` response walk): record a finite numeric price only
when the mint has no recorded price yet (`Number.isFinite(px) && out[k] == null`). -/
def applyBe (out : PriceMap) : List (String × Option ℚ) → PriceMap
  | [] => out
  | (k, px) :: rest =>
      applyBe (match px with
        | some v =>
            if out k = none then (fun m => if m = k then some v else out m) else out
        | none => out) rest

/-- The `birdeye` helper (lines 363-380): it returns without issuing a query
when the credential is missing or the chunk is empty
(`if (!BIRDEYE_API_KEY || chunk.length === 0) return`); otherwise it issues one
secondary-provider query for exactly `chunk` and applies the response.  The
second component records the secondary queries issued (the instrumentation used
to reason about which requests went out). -/
def birdeyeStep (env : PriceEnv) (out : PriceMap) (chunk : List String) :
    PriceMap × List (List String) :=
  if env.beKey = false ∨ chunk = [] then (out, [])
  else (applyBe out (env.beResp chunk), [chunk])

/-- One iteration of the batch loop of `getPrices` (lines 382-387): query the
primary provider for the chunk, compute the subset still missing a price, and
call the secondary provider for it when it is non-empty
(`if (missing.length) await birdeye(missing)`). -/
def processChunk (env : PriceEnv) (out : PriceMap) (chunk : List String) :
    PriceMap × List (List String) :=
  let out1 := applyJup out (env.jupResp chunk)
  let missing := chunk.filter (fun m => out1 m = none)
  if missing = [] then (out1, []) else birdeyeStep env out1 missing

/-- The batch loop folded over all chunks, accumulating the secondary-query log. -/
def getPricesAux (env : PriceEnv) :
    PriceMap → List (List String) → List (List String) → PriceMap × List (List String)
  | out, log, [] => (out, log)
  | out, log, c :: rest =>
      let r := processChunk env out c
      getPricesAux env r.1 (log ++ r.2) rest

/-- `[...new Set(l)]`: deduplication keeping the first occurrence of each element. -/
def dedupFirstAux (seen : List String) : List String → List String
  | [] => []
  | x :: xs => if x ∈ seen then dedupFirstAux seen xs else x :: dedupFirstAux (x :: seen) xs

def dedupFirst (l : List String) : List String := dedupFirstAux [] l

/-- Partition a list into batches of `BATCH = 50` (line 343 / loop at line 382).
Written with a fuel argument so that it is structurally recursive and evaluates
in the kernel; the fuel `l.length` always suffices since every round consumes
at least one element. -/
def chunks50Aux : ℕ → List String → List (List String)
  | _, [] => []
  | 0, _ :: _ => []
  | fuel + 1, x :: xs => (x :: xs).take 50 :: chunks50Aux fuel ((x :: xs).drop 50)

def chunks50 (l : List String) : List (List String) := chunks50Aux l.length l

/-- `getPrices` (src/index.js second program, lines 340-389), instrumented to
also return the list of secondary-provider queries issued.
`mints.filter (· ≠ "")` models `.filter(Boolean)` on strings. -/
def getPrices (env : PriceEnv) (mints : List String) : PriceMap × List (List String) :=
  getPricesAux env (fun _ => none) [] (chunks50 (dedupFirst (mints.filter (· ≠ ""))))

/-- One attempt of `fetchJson` (src/index.js second program, lines 259-285):
the underlying `fetch` either fails at the network level (or is aborted by the
timeout), or produces a response with an HTTP status and a body that may fail
to parse as JSON (`none`; the code then substitutes `{}`).  `α` is the type of
parsed JSON bodies. -/
inductive FetchAttempt (α : Type) where
  | netErr (msg : String)
  | resp (status : ℕ) (body : Option α)

/-- Lines 264-275: a 2xx response returns the parsed body (or `{}` on parse
failure); status 429 and 5xx throw, so that the attempt is retried; any other
non-2xx status returns the best-effort body.  The thrown error is summarized by
the status string. -/
def attemptOutcome (emptyObj : α) : FetchAttempt α → Except String α
  | .netErr m => .error m
  | .resp st body =>
      if 200 ≤ st ∧ st ≤ 299 then .ok (body.getD emptyObj)
      else if st = 429 ∨ 500 ≤ st then .error (toString st)
      else .ok (body.getD emptyObj)

/-- The `while (true)` retry loop of `fetchJson` (lines 260-284): `attempts i`
is the outcome of the i-th attempt (0-based), `a` the current value of the
`attempt` counter.  On failure the counter is incremented and the loop exits
with the last error once `attempt > retries`.  The second component of the
result counts the attempts consumed.  (The backoff sleep has no observable
effect in this model.) -/
def fetchJsonGo (emptyObj : α) (attempts : ℕ → FetchAttempt α) (retries a : ℕ) :
    Except String α × ℕ :=
  match attemptOutcome emptyObj (attempts a) with
  | .ok v => (.ok v, a + 1)
  | .error e =>
      if retries < a + 1 then (.error e, a + 1)
      else fetchJsonGo emptyObj attempts retries (a + 1)
termination_by retries + 1 - a
decreasing_by omega

/-- `fetchJson` with the attempt counter starting at 0 (line 260). -/
def fetchJson (emptyObj : α) (attempts : ℕ → FetchAttempt α) (retries : ℕ) :
    Except String α × ℕ :=
  fetchJsonGo emptyObj attempts retries 0

/-- A Jupiter token-list entry as stored by `getJupMap`
(src/index.js second program, lines 322-329). -/
structure TokenMeta where
  symbol : String
  name : String
  logoURI : String
deriving DecidableEq

/-- A parsed token account balance (lines 459-468): `{ mint, amount, decimals }`
with `amount` the UI amount.  A missing mint field is modeled by `""`
(JS string falsiness). -/
structure RawToken where
  mint : String
  amount : ℚ
  decimals : ℕ
deriving DecidableEq

/-- A composed wallet-token row (lines 475-492). -/
structure TokenRow where
  mint : String
  symbol : String
  name : String
  logo : String
  amount : ℚ
  decimals : ℕ
  priceUsd : ℚ
  usd : ℚ
deriving DecidableEq

/-- The wrapped-SOL sentinel mint (line 254). -/
def WSOL : String := "So11111111111111111111111111111111111111112"

/-- The account filter of line 469: `t?.mint && t.amount > 0`. -/
def tokensRawFilter (l : List RawToken) : List RawToken :=
  l.filter (fun t => decide (t.mint ≠ "" ∧ 0 < t.amount))

/-- Row composition of the second program (lines 475-492): metadata join
(missing entry ⇒ empty fields), price coercion `Number(priceMap[t.mint] || 0)`,
`usd = priceUsd * amount`, logo falling back to the CDN URL templated on the
mint. -/
def mkRow (jmap : String → Option TokenMeta) (pm : PriceMap) (t : RawToken) : TokenRow :=
  let meta := (jmap t.mint).getD ⟨"", "", ""⟩
  let priceUsd := (pm t.mint).getD 0
  let logo := if meta.logoURI ≠ "" then meta.logoURI
              else "https://img.jup.ag/128/" ++ t.mint ++ ".png"
  { mint := t.mint, symbol := meta.symbol, name := meta.name, logo := logo,
    amount := t.amount, decimals := t.decimals, priceUsd := priceUsd,
    usd := priceUsd * t.amount }

/-- The visibility filter of the second program (line 497):
`(t.priceUsd > 0 ? t.usd >= minUsd : true)`. -/
def tokenVisible (minUsd : ℚ) (t : TokenRow) : Bool :=
  if 0 < t.priceUsd then decide (minUsd ≤ t.usd) else true

/-- The ordering used by the sort of line 493
(`(b.usd || 0) - (a.usd || 0)`: descending by usd; in the ℚ model
`usd || 0` is `usd`). -/
def rowGe (a b : TokenRow) : Prop := b.usd ≤ a.usd

instance : DecidableRel rowGe := fun a b => inferInstanceAs (Decidable (b.usd ≤ a.usd))

instance : IsTotal TokenRow rowGe := ⟨fun a b => le_total b.usd a.usd⟩

instance : IsTrans TokenRow rowGe := ⟨fun _ _ _ h1 h2 => le_trans h2 h1⟩

/-- `maxTokens` parsing of line 436: `Math.max(1, Number(req.query.maxTokens ?? 25))`;
the query parameter is modeled as an optional integer. -/
def maxTokensOf (q : Option ℤ) : ℤ := max 1 (q.getD 25)

/-- The `/wallet` response payload of the second program (lines 507-524);
`updated` is the timestamp, and the constant fields (`rpc`, `includeToken22`,
`priceProvider`) are omitted as they do not depend on the computation. -/
structure WalletSnapshot where
  owner : String
  updated : ℕ
  sol : ℚ
  solUsd : ℚ
  totalUsdAll : ℚ
  totalUsdVisible : ℚ
  countAll : ℕ
  countVisible : ℕ
  tokens : List TokenRow
deriving DecidableEq

/-- Snapshot assembly of the second program's `/wallet` handler
(lines 459-524), starting from the parsed account list: filter the accounts
(line 469), join metadata and prices (`mkRow`), sort all rows descending by
usd — JS `Array.prototype.sort` is stable and `List.insertionSort` is stable
for this total preorder, so both produce the same list — then filter by
`tokenVisible` and truncate to `maxTokens` (lines 493-498), and compute both
totals by folding `usd` (the `Number.isFinite(t.usd)` guard of lines 502/505
is always true in the ℚ model). -/
def composeSnapshot (jmap : String → Option TokenMeta) (pm : PriceMap) (owner : String)
    (now : ℕ) (sol minUsd : ℚ) (mtParam : Option ℤ) (tokensIn : List RawToken) :
    WalletSnapshot :=
  let raws := tokensRawFilter tokensIn
  let solPrice := (pm WSOL).getD 0
  let tokensAll := List.insertionSort rowGe (raws.map (mkRow jmap pm))
  let tokensVisible :=
    (tokensAll.filter (tokenVisible minUsd)).take (maxTokensOf mtParam).toNat
  { owner := owner, updated := now, sol := sol, solUsd := sol * solPrice,
    totalUsdAll := solPrice * sol + tokensAll.foldl (fun s t => s + t.usd) 0,
    totalUsdVisible := solPrice * sol + tokensVisible.foldl (fun s t => s + t.usd) 0,
    countAll := tokensAll.length, countVisible := tokensVisible.length,
    tokens := tokensVisible }

/-- Lines 471-472: the price map used by the `/wallet` handler — one
`getPrices` call on the distinct mints of the filtered balances plus the
wrapped-SOL sentinel. -/
def snapshotPriceMap (env : PriceEnv) (raws : List RawToken) : PriceMap :=
  (getPrices env (dedupFirst (raws.map (·.mint)) ++ [WSOL])).1

/-- Body of a `/wallet` response of the second program. -/
inductive WalletBody where
  | err (msg : String)
  | snap (s : WalletSnapshot) (warning : Option String)
deriving DecidableEq

/-- An HTTP response of the second program's `/wallet` route. -/
structure WResp where
  status : ℕ
  body : WalletBody
deriving DecidableEq

/-- The degraded 200 payload of the catch branch (lines 527-538): same shape,
zeros and empty list, plus a warning. -/
def degradedSnapshot (owner : String) (now : ℕ) : WalletSnapshot :=
  { owner := owner, updated := now, sol := 0, solUsd := 0, totalUsdAll := 0,
    totalUsdVisible := 0, countAll := 0, countVisible := 0, tokens := [] }

/-- The second program's `/wallet` handler (lines 433-540).  The fallible part
of the `try` body is abstracted as `pipeline`: `.ok (sol, accounts)` is a run
in which the `new PublicKey` parse succeeded and the balance/token-account
fetches of lines 448-469 produced these values; `.error e` a run in which the
`try` body threw `e` (every later step — `getJupMap`, `getPrices` — catches
its own errors and cannot throw).  The parameter checks and both response
branches (200 with snapshot, 200 degraded with warning, 400 on empty address)
are embedded as written. -/
def walletHandler2 (jmap : String → Option TokenMeta) (env : PriceEnv) (address : String)
    (minUsd : ℚ) (mtParam : Option ℤ) (now : ℕ)
    (pipeline : Except String (ℚ × List RawToken)) : WResp :=
  let ownerStr := strTrim address
  if ownerStr = "" then ⟨400, .err "Missing address"⟩
  else
    match pipeline with
    | .ok (sol, accounts) =>
        ⟨200, .snap (composeSnapshot jmap (snapshotPriceMap env (tokensRawFilter accounts))
                      ownerStr now sol minUsd mtParam accounts) none⟩
    | .error e => ⟨200, .snap (degradedSnapshot ownerStr now) (some e)⟩

/-- The first program's response cache (lines 27-33), keyed by the components
of the `/wallet` cache key `wallet:${ownerStr}:${minUsd}:${maxTokens}`
(line 67); an entry is `{ ts, data }`. -/
def CacheMap (α : Type) : Type := String × ℚ × ℤ → Option (ℕ × α)

/-- `getCache` (lines 28-32): a hit younger than the TTL returns its data,
anything else is a miss. -/
def getCache1 (c : CacheMap α) (key : String × ℚ × ℤ) (now ttl : ℕ) : Option α :=
  match c key with
  | some hit => if now - hit.1 < ttl then some hit.2 else none
  | none => none

/-- `setCache` (line 33). -/
def setCache1 (c : CacheMap α) (key : String × ℚ × ℤ) (now : ℕ) (d : α) : CacheMap α :=
  fun k => if k = key then some (now, d) else c k

/-- Result of one run of the first program's `/wallet` handler: status, body
(`Except` models error payload vs snapshot payload), resulting cache state, and
whether the response was served from the cache. -/
structure H1Out (α : Type) where
  status : ℕ
  body : Except String α
  cache : CacheMap α
  fromCache : Bool

/-- The first program's `/wallet` handler (src/index.js lines 59-146):
parameter check (line 64), 10-second response cache (lines 67-69 and 140-141),
and the status policy.  The snapshot computation of lines 71-139 is abstracted
as `compute` (`.error e` = the try body threw `e`); the catch branch of
lines 142-145 answers status **500**. -/
def walletHandler1 (c : CacheMap α) (address : String) (minUsd : ℚ) (maxTokens : ℤ)
    (now : ℕ) (compute : Except String α) : H1Out α :=
  let ownerStr := strTrim address
  if ownerStr = "" then ⟨400, .error "Missing address", c, false⟩
  else
    let key := (ownerStr, minUsd, maxTokens)
    match getCache1 c key now 10000 with
    | some d => ⟨200, .ok d, c, true⟩
    | none =>
        match compute with
        | .ok snapData => ⟨200, .ok snapData, setCache1 c key now snapData, false⟩
        | .error e => ⟨500, .error e, c, false⟩

/-- A raw trade record as consumed by the first program's `/buys` normalizer
(src/index.js lines 184-207) and by part_000's `/buys` filter; absent JS
fields are `none`. -/
structure RawTrade where
  side : Option String := none
  is_buy : Option Bool := none
  volume_usd : Option ℚ := none
  usdValue : Option ℚ := none
  value_usd : Option ℚ := none
  amountToken : Option ℚ := none
  base_amount : Option ℚ := none
  amount : Option ℚ := none
  priceUsd : Option ℚ := none
  price_usd : Option ℚ := none
  price : Option ℚ := none
deriving DecidableEq

/-- Line 189: `(x.side || (x.is_buy ? "buy" : "sell") || "").toString().toLowerCase()`.
A present non-empty `side` string wins; otherwise the ternary on `is_buy`
produces `"buy"`/`"sell"` (both truthy, so the final `|| ""` is never taken). -/
def sideOf (x : RawTrade) : String :=
  strLower (match x.side with
    | some s => if s ≠ "" then s else (if x.is_buy = some true then "buy" else "sell")
    | none => if x.is_buy = some true then "buy" else "sell")

/-- Line 190: `const isBuy = side === "buy" || x.is_buy === true`. -/
def isBuyOf (x : RawTrade) : Bool :=
  decide (sideOf x = "buy") || decide (x.is_buy = some true)

/-- JS `a ?? b ?? c ?? 0` over possibly-absent numbers (first present value). -/
def firstPresentQ (l : List (Option ℚ)) : ℚ :=
  match l with
  | [] => 0
  | x :: r =>
    match x with
    | some v => v
    | none => firstPresentQ r

/-- The numeric part of a normalized first-program `/buys` item
(lines 198-207); the display-string fields (symbol, dex, tx, time) are carried
by the code but play no role in classification or filtering. -/
structure BuyItem1 where
  isBuy : Bool
  usd : ℚ
  qty : ℚ
  priceUsd : ℚ
deriving DecidableEq

/-- Lines 185-207: normalization of one raw record of the first program. -/
def normalize1 (x : RawTrade) : BuyItem1 :=
  { isBuy := isBuyOf x
    usd := firstPresentQ [x.volume_usd, x.usdValue, x.value_usd]
    qty := firstPresentQ [x.amountToken, x.base_amount, x.amount]
    priceUsd := firstPresentQ [x.priceUsd, x.price_usd, x.price] }

/-- Lines 184-210: the first program's `/buys` item list:
`.filter(i => i.isBuy && i.usd >= minUsd).slice(0, limit)`. -/
def buysItems1 (minUsd : ℚ) (limit : ℕ) (rows : List RawTrade) : List BuyItem1 :=
  ((rows.map normalize1).filter (fun i => i.isBuy && decide (minUsd ≤ i.usd))).take limit

/-- part_000 second program, `/buys` handler lines 323-325: the row filter
`(t?.side || "").toLowerCase() === "buy"` — classification by `side` alone. -/
def isBuyP0 (x : RawTrade) : Bool := decide (strLower (x.side.getD "") = "buy")

/-- part_000 lines 323-325: `rows = (data?.data?.items || []).filter(...)`. -/
def buysRowsP0 (rows : List RawTrade) : List RawTrade := rows.filter isBuyP0

/-- A raw transaction record as consumed by the second program's `/buys`
normalizer (src/index.js lines 562-592); absent fields are `none`. -/
structure RawTx where
  tokenMint : Option String := none
  baseMint : Option String := none
  mint : Option String := none
  amount : Option ℚ := none
  tokenAmount : Option ℚ := none
  baseAmount : Option ℚ := none
  priceUsd : Option ℚ := none
  valueUsd : Option ℚ := none
  signature : Option String := none
  txHash : Option String := none
  sig : Option String := none
  blockUnixTime : Option ℕ := none
  ts : Option ℕ := none
  time : Option ℕ := none
  owner : Option String := none
  trader : Option String := none
  user : Option String := none
deriving DecidableEq

/-- JS `a || b || c || ""` over possibly-absent strings (the empty string is
falsy). -/
def firstTruthyS (l : List (Option String)) : String :=
  match l with
  | [] => ""
  | x :: r =>
    match x with
    | some s => if s ≠ "" then s else firstTruthyS r
    | none => firstTruthyS r

/-- JS `a || b || c || 0` over possibly-absent numbers (0 and NaN are falsy;
NaN/absent is modeled by `none`). -/
def firstTruthyQ (l : List (Option ℚ)) : ℚ :=
  match l with
  | [] => 0
  | x :: r =>
    match x with
    | some v => if v ≠ 0 then v else firstTruthyQ r
    | none => firstTruthyQ r

/-- Same over natural-number timestamps. -/
def firstTruthyN (l : List (Option ℕ)) : ℕ :=
  match l with
  | [] => 0
  | x :: r =>
    match x with
    | some v => if v ≠ 0 then v else firstTruthyN r
    | none => firstTruthyN r

/-- Line 575: `const px = Number(tx?.priceUsd) || Number(pmap[mint] || 0)`
(an absent or zero `priceUsd` falls back to the resolved price map). -/
def pxOf (pm : PriceMap) (mint : String) (x : RawTx) : ℚ :=
  match x.priceUsd with
  | some v => if v ≠ 0 then v else (pm mint).getD 0
  | none => (pm mint).getD 0

/-- Line 576: `Number(tx?.valueUsd) || (Number.isFinite(px) && px > 0 ?
amount * px : undefined)`, then line 589 keeps it only when finite — in the ℚ
model the computed product is always finite, so `usd` is absent exactly when
both the explicit value is falsy and no positive price is available. -/
def usdOf2 (x : RawTx) (amount px : ℚ) : Option ℚ :=
  match x.valueUsd with
  | some v => if v ≠ 0 then some v else (if 0 < px then some (amount * px) else none)
  | none => if 0 < px then some (amount * px) else none

/-- A normalized `/buys` row of the second program (lines 580-591). -/
structure BuyRow where
  sig : String
  ts : ℕ
  mint : String
  symbol : String
  name : String
  image : String
  amount : ℚ
  priceUsd : Option ℚ
  usd : Option ℚ
  owner : String
deriving DecidableEq

/-- Lines 572-592: normalization of one raw transaction of the second program. -/
def normalize2 (jmap : String → Option TokenMeta) (pm : PriceMap) (x : RawTx) : BuyRow :=
  let mint := firstTruthyS [x.tokenMint, x.baseMint, x.mint]
  let amount := firstTruthyQ [x.amount, x.tokenAmount, x.baseAmount]
  let px := pxOf pm mint x
  let meta := (jmap mint).getD ⟨"", "", ""⟩
  let logo := if meta.logoURI ≠ "" then meta.logoURI
              else if mint ≠ "" then "https://img.jup.ag/128/" ++ mint ++ ".png" else ""
  { sig := firstTruthyS [x.signature, x.txHash, x.sig]
    ts := firstTruthyN [x.blockUnixTime, x.ts, x.time]
    mint := mint, symbol := meta.symbol, name := meta.name, image := logo
    amount := amount
    priceUsd := if 0 < px then some px else none
    usd := usdOf2 x amount px
    owner := firstTruthyS [x.owner, x.trader, x.user] }

/-- Line 594's filter predicate:
`(b.usd == null ? true : b.usd >= minUsd)`. -/
def buysValueFilter (minUsd : ℚ) (b : BuyRow) : Bool :=
  match b.usd with
  | none => true
  | some u => decide (minUsd ≤ u)

/-- Lines 562-568: the set of mints to price, in insertion order
(`if (tx?.tokenMint) toPrice.add(...)` etc., then `[...toPrice]`). -/
def mintsToPrice (rows : List RawTx) : List String :=
  dedupFirst (rows.flatMap (fun tx =>
    (match tx.tokenMint with | some s => if s ≠ "" then [s] else [] | none => []) ++
    (match tx.baseMint with | some s => if s ≠ "" then [s] else [] | none => []) ++
    (match tx.mint with | some s => if s ≠ "" then [s] else [] | none => [])))

/-- Body of a `/buys` response of the second program. -/
inductive BuysBody where
  | err (msg : String)
  | buys (items : List BuyRow) (warning : Option String)
deriving DecidableEq

/-- An HTTP response of the second program's `/buys` route. -/
structure BResp where
  status : ℕ
  body : BuysBody
deriving DecidableEq

/-- Line 546: `Math.max(1, Math.min(50, Number(req.query.limit ?? 10)))`. -/
def limitOf (q : Option ℤ) : ℤ := max 1 (min 50 (q.getD 10))

/-- The second program's `/buys` handler (lines 543-602).  `pipeline` abstracts
the trade-history fetch of lines 553-559 (`.error e` = `fetchJson` threw after
its retries; `.ok rows` = the extracted row array); every later step catches
its own errors.  The branches: 400 on empty address, 200 with a warning when
the credential is missing (line 550), 200 with normalized/filtered/truncated
items on success, and the catch branch (lines 598-601) answering 200 with an
empty list and a warning. -/
def buysHandler2 (jmap : String → Option TokenMeta) (env : PriceEnv) (address : String)
    (limitParam : Option ℤ) (minUsd : ℚ) (pipeline : Except String (List RawTx)) : BResp :=
  let addr := strTrim address
  let limit := limitOf limitParam
  if addr = "" then ⟨400, .err "Missing address"⟩
  else if env.beKey = false then ⟨200, .buys [] (some "No BIRDEYE_API_KEY set")⟩
  else
    match pipeline with
    | .error e => ⟨200, .buys [] (some e)⟩
    | .ok rows =>
        let pm := (getPrices env (mintsToPrice rows)).1
        let items :=
          ((rows.map (normalize2 jmap pm)).filter (buysValueFilter minUsd)).take limit.toNat
        ⟨200, .buys items none⟩

/-- Row composition of the first program's `/wallet` (lines 110-125):
`const price = prices[t.mint] ?? 0`, `usd = price * amount`, metadata join with
empty-string fallbacks (and no CDN logo fallback in this variant). -/
def mkRowV1 (jmap : String → Option TokenMeta) (prices : PriceMap) (t : RawToken) : TokenRow :=
  let meta := (jmap t.mint).getD ⟨"", "", ""⟩
  let price := (prices t.mint).getD 0
  { mint := t.mint, symbol := meta.symbol, name := meta.name, logo := meta.logoURI,
    amount := t.amount, decimals := t.decimals, priceUsd := price,
    usd := price * t.amount }

/-- Line 128 of the first program:
`tokens.filter(t => (t.usd || 0) >= minUsd).slice(0, maxTokens)` — the
`minUsd` filter is applied to the 0-coerced usd, with no known/unknown price
distinction. -/
def visibleV1 (minUsd : ℚ) (maxTokens : ℕ) (rows : List TokenRow) : List TokenRow :=
  (rows.filter (fun t => decide (minUsd ≤ t.usd))).take maxTokens

/-- Projection used to compare two `/wallet` responses by their timestamp. -/
def respUpdated (r : WResp) : ℕ :=
  match r.body with
  | .snap s _ => s.updated
  | .err _ => 0

/-- A well-behaved environment for concrete evaluations: the primary provider
prices every requested mint at 1, the secondary is configured but never
consulted. -/
def envW : PriceEnv :=
  { beKey := true
    jupResp := fun c => c.map (fun k => (k, some (1 : ℚ)))
    beResp := fun _ => [] }

/-- An environment whose primary response contains an entry for a mint that
was never requested (providers are not guaranteed to echo only the query). -/
def envX : PriceEnv :=
  { beKey := false
    jupResp := fun _ => [("a", some 1), ("b", some 2)]
    beResp := fun _ => [] }

/-- The empty environment: no credential, all responses empty. -/
def env0 : PriceEnv := { beKey := false, jupResp := fun _ => [], beResp := fun _ => [] }

/-- The empty metadata map. -/
def jmap0 : String → Option TokenMeta := fun _ => none

/-- A raw trade carrying `side: "sell"` together with `is_buy: true`. -/
def sellWithFlag : RawTrade := { side := some "sell", is_buy := some true }

/-- A raw trade whose only signal is `side: "buy"`. -/
def sideBuyOnly : RawTrade := { side := some "buy" }

/-! ### Helper lemmas about the price resolver -/

theorem applyBe_keeps (resp : List (String × Option ℚ)) :
    ∀ (out : PriceMap) (m : String) (v : ℚ), out m = some v → applyBe out resp m = some v := by
  induction resp with
  | nil => intro out m v h; simpa [applyBe] using h
  | cons p rest ih =>
      intro out m v h
      obtain ⟨k, px⟩ := p
      cases px with
      | none => simpa [applyBe] using ih out m v h
      | some w =>
          by_cases hk : out k = none
          · simp only [applyBe, hk, if_pos]
            apply ih
            by_cases hm : m = k
            · rw [hm] at h; rw [h] at hk; cases hk
            · simpa [hm] using h
          · simp only [applyBe, hk, if_neg, ite_false]
            exact ih out m v h

theorem processChunk_qlog (env : PriceEnv) (out : PriceMap) (chunk : List String) :
    (processChunk env out chunk).2 =
      (if (chunk.filter (fun m => applyJup out (env.jupResp chunk) m = none)) ≠ [] ∧
          env.beKey = true
       then [chunk.filter (fun m => applyJup out (env.jupResp chunk) m = none)]
       else []) := by
  unfold processChunk birdeyeStep
  by_cases h : (chunk.filter (fun m => applyJup out (env.jupResp chunk) m = none)) = []
  · simp [h]
  · cases hb : env.beKey
    · simp [h, hb]
    · simp [h, hb]

theorem getPricesAux_log_mem (env : PriceEnv) (q : List String) :
    ∀ (cs : List (List String)) (out : PriceMap) (log : List (List String)),
      q ∈ (getPricesAux env out log cs).2 → q ∈ log ∨ (q ≠ [] ∧ env.beKey = true) := by
  intro cs
  induction cs with
  | nil => intro out log h; exact Or.inl (by simpa [getPricesAux] using h)
  | cons c rest ih =>
      intro out log h
      simp only [getPricesAux] at h
      rcases ih _ _ h with h2 | h2
      · rw [List.mem_append] at h2
        rcases h2 with h3 | h3
        · exact Or.inl h3
        · right
          rw [processChunk_qlog] at h3
          split at h3
          · next hcond =>
              rcases List.mem_singleton.1 h3 with rfl
              exact hcond
          · cases h3
      · exact Or.inr h2

theorem applyJup_support (resp : List (String × Option ℚ)) :
    ∀ (out : PriceMap) (m : String), applyJup out resp m ≠ none →
      out m ≠ none ∨ ∃ v, (m, v) ∈ resp := by
  induction resp with
  | nil => intro out m h; exact Or.inl (by simpa [applyJup] using h)
  | cons p rest ih =>
      intro out m h
      obtain ⟨k, px⟩ := p
      cases px with
      | none =>
          rcases ih _ m (by simpa [applyJup] using h) with h2 | ⟨v, hv⟩
          · exact Or.inl h2
          · exact Or.inr ⟨v, List.mem_cons_of_mem _ hv⟩
      | some w =>
          rcases ih _ m (by simpa [applyJup] using h) with h2 | ⟨v, hv⟩
          · by_cases hm : m = k
            · exact Or.inr ⟨some w, by simp [hm]⟩
            · exact Or.inl (by simpa [hm] using h2)
          · exact Or.inr ⟨v, List.mem_cons_of_mem _ hv⟩

theorem applyBe_support (resp : List (String × Option ℚ)) :
    ∀ (out : PriceMap) (m : String), applyBe out resp m ≠ none →
      out m ≠ none ∨ ∃ v, (m, v) ∈ resp := by
  induction resp with
  | nil => intro out m h; exact Or.inl (by simpa [applyBe] using h)
  | cons p rest ih =>
      intro out m h
      obtain ⟨k, px⟩ := p
      cases px with
      | none =>
          rcases ih _ m (by simpa [applyBe] using h) with h2 | ⟨v, hv⟩
          · exact Or.inl h2
          · exact Or.inr ⟨v, List.mem_cons_of_mem _ hv⟩
      | some w =>
          rcases ih _ m (by simpa [applyBe] using h) with h2 | ⟨v, hv⟩
          · by_cases hk : out k = none
            · by_cases hm : m = k
              · exact Or.inr ⟨some w, by simp [hm]⟩
              · exact Or.inl (by simpa [hk, hm] using h2)
            · exact Or.inl (by simpa [hk] using h2)
          · exact Or.inr ⟨v, List.mem_cons_of_mem _ hv⟩

theorem processChunk_support (env : PriceEnv) (out : PriceMap) (chunk : List String)
    (hjup : ∀ c k v, (k, v) ∈ env.jupResp c → k ∈ c)
    (hbe : ∀ c k v, (k, v) ∈ env.beResp c → k ∈ c)
    (m : String) (h : (processChunk env out chunk).1 m ≠ none) :
    out m ≠ none ∨ m ∈ chunk := by
  have fromJup : applyJup out (env.jupResp chunk) m ≠ none → out m ≠ none ∨ m ∈ chunk := by
    intro hj
    rcases applyJup_support _ _ _ hj with h2 | ⟨v, hv⟩
    · exact Or.inl h2
    · exact Or.inr (hjup _ _ _ hv)
  unfold processChunk birdeyeStep at h
  by_cases hmiss :
      (chunk.filter (fun m => applyJup out (env.jupResp chunk) m = none)) = []
  · rw [if_pos hmiss] at h
    exact fromJup h
  · rw [if_neg hmiss] at h
    by_cases hb : env.beKey = false ∨
        (chunk.filter (fun m => applyJup out (env.jupResp chunk) m = none)) = []
    · rw [if_pos hb] at h
      exact fromJup h
    · rw [if_neg hb] at h
      rcases applyBe_support _ _ _ h with h2 | ⟨v, hv⟩
      · exact fromJup h2
      · exact Or.inr (List.mem_of_mem_filter (hbe _ _ _ hv))

theorem getPricesAux_support (env : PriceEnv)
    (hjup : ∀ c k v, (k, v) ∈ env.jupResp c → k ∈ c)
    (hbe : ∀ c k v, (k, v) ∈ env.beResp c → k ∈ c) (m : String) :
    ∀ (cs : List (List String)) (out : PriceMap) (log : List (List String)),
      (getPricesAux env out log cs).1 m ≠ none →
      out m ≠ none ∨ ∃ c ∈ cs, m ∈ c := by
  intro cs
  induction cs with
  | nil => intro out log h; exact Or.inl (by simpa [getPricesAux] using h)
  | cons c rest ih =>
      intro out log h
      simp only [getPricesAux] at h
      rcases ih _ _ h with h2 | ⟨c2, hc2, hm2⟩
      · rcases processChunk_support env out c hjup hbe m h2 with h3 | h3
        · exact Or.inl h3
        · exact Or.inr ⟨c, List.mem_cons_self _ _, h3⟩
      · exact Or.inr ⟨c2, List.mem_cons_of_mem _ hc2, hm2⟩

theorem chunks50Aux_subset :
    ∀ (fuel : ℕ) (l c : List String), c ∈ chunks50Aux fuel l → c ⊆ l := by
  intro fuel
  induction fuel with
  | zero => intro l c h; cases l <;> simp [chunks50Aux] at h
  | succ f ih =>
      intro l c h
      cases l with
      | nil => simp [chunks50Aux] at h
      | cons x xs =>
          simp only [chunks50Aux] at h
          rcases List.mem_cons.1 h with h1 | h1
          · subst h1; exact List.take_subset _ _
          · exact fun a ha => List.drop_subset _ _ (ih _ _ h1 ha)

theorem dedupFirstAux_subset : ∀ (l seen : List String), dedupFirstAux seen l ⊆ l := by
  intro l
  induction l with
  | nil => intro seen; simp [dedupFirstAux]
  | cons x xs ih =>
      intro seen
      by_cases h : x ∈ seen
      · simp only [dedupFirstAux, if_pos h]
        exact fun a ha => List.mem_cons_of_mem _ (ih seen ha)
      · simp only [dedupFirstAux, if_neg h]
        intro a ha
        rcases List.mem_cons.1 ha with h1 | h1
        · simp [h1]
        · exact List.mem_cons_of_mem _ (ih _ h1)

/-! ### Helper lemmas about the snapshot assembler -/

theorem foldl_add_usd (l : List TokenRow) :
    ∀ a : ℚ, l.foldl (fun s t => s + t.usd) a = a + (l.map (fun t => t.usd)).sum := by
  induction l with
  | nil => intro a; simp
  | cons x xs ih =>
      intro a
      simp only [List.foldl_cons, List.map_cons, List.sum_cons, ih]
      ring

theorem mem_tokens_composeSnapshot {jmap : String → Option TokenMeta} {pm : PriceMap}
    {owner : String} {now : ℕ} {sol minUsd : ℚ} {mtParam : Option ℤ}
    {tokensIn : List RawToken} {r : TokenRow}
    (h : r ∈ (composeSnapshot jmap pm owner now sol minUsd mtParam tokensIn).tokens) :
    ∃ t ∈ tokensRawFilter tokensIn, r = mkRow jmap pm t := by
  simp only [composeSnapshot] at h
  have h2 := List.take_subset _ _ h
  have h3 := List.mem_of_mem_filter h2
  have h4 := (List.mem_insertionSort rowGe).1 h3
  obtain ⟨t, ht, he⟩ := List.mem_map.1 h4
  exact ⟨t, ht, he.symm⟩

theorem row_facts {jmap : String → Option TokenMeta} {pm : PriceMap}
    {tokensIn : List RawToken} (hpm : ∀ m p, pm m = some p → 0 ≤ p) {r : TokenRow}
    (h : ∃ t ∈ tokensRawFilter tokensIn, r = mkRow jmap pm t) :
    0 < r.amount ∧ 0 ≤ r.priceUsd ∧ r.usd = r.priceUsd * r.amount := by
  obtain ⟨t, ht, rfl⟩ := h
  have hamt : 0 < t.amount := by
    have h2 := (List.mem_filter.1 ht).2
    simp only [decide_eq_true_eq] at h2
    exact h2.2
  refine ⟨hamt, ?_, rfl⟩
  cases hp : pm t.mint with
  | none => simp [mkRow, hp]
  | some p =>
      simp only [mkRow, hp, Option.getD_some]
      exact hpm _ _ hp

/-! ### Helper lemma for the retry loop -/

theorem fetchJsonGo_spec (emptyObj : α) (attempts : ℕ → FetchAttempt α) (retries a : ℕ)
    (ha : a ≤ retries) :
    a < (fetchJsonGo emptyObj attempts retries a).2 ∧
    (fetchJsonGo emptyObj attempts retries a).2 ≤ retries + 1 ∧
    (fetchJsonGo emptyObj attempts retries a).1 =
      attemptOutcome emptyObj (attempts ((fetchJsonGo emptyObj attempts retries a).2 - 1)) := by
  cases hres : attemptOutcome emptyObj (attempts a) with
  | ok v =>
      have hgo : fetchJsonGo emptyObj attempts retries a = (.ok v, a + 1) := by
        rw [fetchJsonGo, hres]
      rw [hgo]
      refine ⟨by omega, by omega, ?_⟩
      simp only [Nat.add_sub_cancel, hres]
  | error e =>
      by_cases hr : retries < a + 1
      · have hgo : fetchJsonGo emptyObj attempts retries a = (.error e, a + 1) := by
          rw [fetchJsonGo, hres]
          simp [hr]
        rw [hgo]
        refine ⟨by omega, by omega, ?_⟩
        simp only [Nat.add_sub_cancel, hres]
      · have hgo : fetchJsonGo emptyObj attempts retries a =
            fetchJsonGo emptyObj attempts retries (a + 1) := by
          rw [fetchJsonGo, hres]
          simp [hr]
        rw [hgo]
        have h := fetchJsonGo_spec emptyObj attempts retries (a + 1) (by omega)
        refine ⟨?_, h.2.1, h.2.2⟩
        have h1 := h.1
        omega
termination_by retries + 1 - a
decreasing_by omega

/-! ### Claim theorems -/

/-- C2: price-resolver fallback.  For every environment, price state and batch:
(1) the secondary provider is queried exactly when the subset of the batch
still unpriced after the primary query is non-empty and the secondary
credential is configured, and the query is for exactly that missing subset;
(2) a secondary-provider result never replaces a price already recorded
(in particular one recorded from the primary provider in this batch);
and globally, every secondary query issued by `getPrices` is non-empty and
happens only with the credential configured. -/
theorem getPrices_secondary_fallback :
    (∀ (env : PriceEnv) (out : PriceMap) (chunk : List String),
      (processChunk env out chunk).2 =
        (if (chunk.filter (fun m => applyJup out (env.jupResp chunk) m = none)) ≠ [] ∧
            env.beKey = true
         then [chunk.filter (fun m => applyJup out (env.jupResp chunk) m = none)]
         else []) ∧
      ∀ (m : String) (v : ℚ), applyJup out (env.jupResp chunk) m = some v →
        (processChunk env out chunk).1 m = some v) ∧
    (∀ (env : PriceEnv) (mints : List String) (q : List String),
      q ∈ (getPrices env mints).2 → q ≠ [] ∧ env.beKey = true) := by
  constructor
  · intro env out chunk
    refine ⟨processChunk_qlog env out chunk, ?_⟩
    intro m v h
    unfold processChunk birdeyeStep
    by_cases hmiss :
        (chunk.filter (fun m => applyJup out (env.jupResp chunk) m = none)) = []
    · rw [if_pos hmiss]
      exact h
    · rw [if_neg hmiss]
      by_cases hb : env.beKey = false ∨
          (chunk.filter (fun m => applyJup out (env.jupResp chunk) m = none)) = []
      · rw [if_pos hb]
        exact h
      · rw [if_neg hb]
        exact applyBe_keeps _ _ _ _ h
  · intro env mints q hq
    rcases getPricesAux_log_mem env q _ _ _ hq with h | h
    · cases h
    · exact h

/-- C2 witness: in a concrete environment where the primary provider prices
the single chunk member, the recorded primary price survives the chunk step. -/
theorem getPrices_secondary_fallback_witness :
    (processChunk envW (fun _ => none) ["alpha"]).1 "alpha" = some 1 :=
  (getPrices_secondary_fallback.1 envW (fun _ => none) ["alpha"]).2 "alpha" 1 (by decide)

/-- C4 counterexample: the claim "no mint that was not in the requested set
appears as a key of the result, even when a provider's response contains extra
entries" is false — `getPrices` records every finite price of a provider
response without intersecting it with the request, so in `envX` (whose primary
response to any query also carries an entry for "b") resolving the set
`["a"]` produces a map whose key "b" is outside the requested set. -/
theorem getPrices_extra_key_counterexample :
    (getPrices envX ["a"]).1 "b" = some 2 ∧ "b" ∉ (["a"] : List String) := by
  constructor
  · decide
  · decide

/-- C4 amended: for every mint set, the keys of the resolved mapping form a
subset of the requested set **provided** each provider response only mentions
mints of the chunk it was queried for; without that hypothesis extra response
entries do appear as keys (see the counterexample). -/
theorem getPrices_keys_subset (env : PriceEnv) (mints : List String)
    (hjup : ∀ c k v, (k, v) ∈ env.jupResp c → k ∈ c)
    (hbe : ∀ c k v, (k, v) ∈ env.beResp c → k ∈ c) :
    ∀ m, (getPrices env mints).1 m ≠ none → m ∈ mints := by
  intro m h
  unfold getPrices at h
  rcases getPricesAux_support env hjup hbe m _ _ _ h with h2 | ⟨c, hc, hm⟩
  · exact absurd rfl h2
  · have h3 : c ⊆ dedupFirst (mints.filter (· ≠ "")) := chunks50Aux_subset _ _ _ hc
    have h4 := dedupFirstAux_subset _ [] (h3 hm)
    exact List.mem_of_mem_filter h4

/-- C4 witness: applying the amended theorem in a well-behaved environment
(primary responses echo exactly the queried mints). -/
theorem getPrices_keys_subset_witness : "alpha" ∈ (["alpha"] : List String) := by
  refine getPrices_keys_subset envW ["alpha"] ?_ ?_ "alpha" (by decide)
  · intro c k v h
    simp only [envW, List.mem_map] at h
    obtain ⟨x, hx, he⟩ := h
    cases he
    exact hx
  · intro c k v h
    simp only [envW] at h
    cases h

/-- C1 counterexample: the claim also covers the first program's `/wallet`
filter (src/index.js line 128), and there it is false — a row whose price is
unknown (the price map holds nothing for its mint, so `usd` is coerced to 0)
is **excluded** at `minUsd = 5` instead of being kept visible. -/
theorem visibleV1_drops_unpriced_counterexample :
    visibleV1 5 25 [mkRowV1 jmap0 (fun _ => none) ⟨"m", 1, 6⟩] = [] ∧
    (fun _ => (none : Option ℚ)) "m" = none := by
  refine ⟨?_, rfl⟩
  have husd : (mkRowV1 jmap0 (fun _ => none) ⟨"m", 1, 6⟩).usd = 0 := by
    simp [mkRowV1, jmap0]
  simp [visibleV1, husd]

/-- C1 amended: the hide-iff-known-and-small biconditional holds for the
**second** program's visibility filter (src/index.js line 497, the
`tokensVisible` construction): a composed row is rejected by the filter iff
its price is known — the price map records a positive price for its mint, the
spec's notion of a known price — and its usd value is below `minUsd`; in
particular a row with no recorded (or non-positive) price always passes,
regardless of `minUsd`.  The first program's filter does not satisfy this
(see the counterexample). -/
theorem tokenVisible_iff (jmap : String → Option TokenMeta) (pm : PriceMap)
    (minUsd : ℚ) (t : RawToken) :
    tokenVisible minUsd (mkRow jmap pm t) = false ↔
      (∃ p, pm t.mint = some p ∧ 0 < p) ∧ (mkRow jmap pm t).usd < minUsd := by
  have hp : (mkRow jmap pm t).priceUsd = (pm t.mint).getD 0 := rfl
  unfold tokenVisible
  rw [hp]
  cases hm : pm t.mint with
  | none =>
      simp only [Option.getD_none, lt_irrefl, if_false]
      constructor
      · intro h; cases h
      · rintro ⟨⟨_, hp2, _⟩, _⟩; cases hp2
  | some p =>
      by_cases h0 : 0 < p
      · rw [Option.getD_some, if_pos h0]
        constructor
        · intro h
          refine ⟨⟨p, rfl, h0⟩, ?_⟩
          have := of_decide_eq_false h
          exact lt_of_not_le this
        · rintro ⟨_, hlt⟩
          exact decide_eq_false (not_le_of_lt hlt)
      · rw [Option.getD_some, if_neg h0]
        constructor
        · intro h; cases h
        · rintro ⟨⟨p2, hp2, h02⟩, _⟩
          cases hp2
          exact absurd h02 h0

/-- C5: in the second program's snapshot, the visible total equals the native
usd value plus the sum of usd values over exactly the rows that survived the
`minUsd` filter and the `maxTokens` truncation (the `tokens` field), where a
row whose mint has no recorded price contributes `0` and a priced row
contributes `price * amount`. -/
theorem totalUsdVisible_eq (jmap : String → Option TokenMeta) (pm : PriceMap)
    (owner : String) (now : ℕ) (sol minUsd : ℚ) (mtParam : Option ℤ)
    (tokensIn : List RawToken) :
    (composeSnapshot jmap pm owner now sol minUsd mtParam tokensIn).totalUsdVisible =
      (composeSnapshot jmap pm owner now sol minUsd mtParam tokensIn).solUsd +
        (((composeSnapshot jmap pm owner now sol minUsd mtParam tokensIn).tokens).map
          (fun r => match pm r.mint with | none => 0 | some p => p * r.amount)).sum := by
  have hform : ∀ r ∈ (composeSnapshot jmap pm owner now sol minUsd mtParam tokensIn).tokens,
      r.usd = (fun r : TokenRow =>
        match pm r.mint with | none => (0 : ℚ) | some p => p * r.amount) r := by
    intro r hr
    obtain ⟨t, ht, rfl⟩ := mem_tokens_composeSnapshot hr
    cases hp : pm t.mint with
    | none => simp [mkRow, hp]
    | some p => simp [mkRow, hp]
  rw [← List.map_congr_left hform]
  simp only [composeSnapshot]
  rw [foldl_add_usd]
  ring

/-- C6: for every input (any owner, including one with no holdings), the
second program's snapshot token list has length at most the clamped
`maxTokens`, is sorted descending by usd value, and — under the spec's data
model in which recorded prices are non-negative — rows without a known
(positive) price are ordered after all rows with one; moreover `maxTokens`
defaults to 25 when the parameter is absent and is always clamped below to 1. -/
theorem snapshotTokens_sorted_bounded (jmap : String → Option TokenMeta) (pm : PriceMap)
    (owner : String) (now : ℕ) (sol minUsd : ℚ) (mtParam : Option ℤ)
    (tokensIn : List RawToken)
    (hpm : ∀ m p, pm m = some p → 0 ≤ p) :
    (composeSnapshot jmap pm owner now sol minUsd mtParam tokensIn).tokens.length ≤
      (maxTokensOf mtParam).toNat ∧
    List.Pairwise rowGe
      (composeSnapshot jmap pm owner now sol minUsd mtParam tokensIn).tokens ∧
    List.Pairwise (fun a b : TokenRow => ¬ 0 < a.priceUsd → ¬ 0 < b.priceUsd)
      (composeSnapshot jmap pm owner now sol minUsd mtParam tokensIn).tokens ∧
    maxTokensOf none = 25 ∧ 1 ≤ maxTokensOf mtParam := by
  have hrows : ∀ r ∈ (composeSnapshot jmap pm owner now sol minUsd mtParam tokensIn).tokens,
      0 < r.amount ∧ 0 ≤ r.priceUsd ∧ r.usd = r.priceUsd * r.amount :=
    fun r hr => row_facts hpm (mem_tokens_composeSnapshot hr)
  have hsorted : List.Pairwise rowGe
      (composeSnapshot jmap pm owner now sol minUsd mtParam tokensIn).tokens := by
    simp only [composeSnapshot]
    exact List.Pairwise.sublist
      ((List.take_sublist _ _).trans (List.filter_sublist _))
      (List.sorted_insertionSort rowGe _)
  refine ⟨?_, hsorted, ?_, by decide, le_max_left _ _⟩
  · simp only [composeSnapshot]
    rw [List.length_take]
    exact min_le_left _ _
  · refine hsorted.imp_of_mem ?_
    intro a b ha hb hab hna hposb
    obtain ⟨haa, hap, hau⟩ := hrows a ha
    obtain ⟨hba, hbp, hbu⟩ := hrows b hb
    have hap0 : a.priceUsd = 0 := le_antisymm (not_lt.1 hna) hap
    have hau0 : a.usd = 0 := by rw [hau, hap0, zero_mul]
    have hbpos : 0 < b.usd := by
      rw [hbu]
      exact mul_pos hposb hba
    have hle : b.usd ≤ a.usd := hab
    rw [hau0] at hle
    exact absurd (lt_of_lt_of_le hbpos hle) (lt_irrefl 0)

/-- C6 witness: apply the theorem with the empty price map (no recorded
prices, hence vacuously non-negative) and one concrete holding. -/
theorem snapshotTokens_sorted_bounded_witness :
    (composeSnapshot jmap0 (fun _ => none) "o" 0 0 0 none [⟨"m", 2, 6⟩]).tokens.length ≤
      (maxTokensOf none).toNat ∧
    List.Pairwise rowGe
      (composeSnapshot jmap0 (fun _ => none) "o" 0 0 0 none [⟨"m", 2, 6⟩]).tokens ∧
    List.Pairwise (fun a b : TokenRow => ¬ 0 < a.priceUsd → ¬ 0 < b.priceUsd)
      (composeSnapshot jmap0 (fun _ => none) "o" 0 0 0 none [⟨"m", 2, 6⟩]).tokens ∧
    maxTokensOf none = 25 ∧ 1 ≤ maxTokensOf none :=
  snapshotTokens_sorted_bounded jmap0 (fun _ => none) "o" 0 0 0 none [⟨"m", 2, 6⟩]
    (fun _ _ h => Option.noConfusion h)

/-- C3 counterexample: the claim also covers the first program's `/wallet`
handler (src/index.js lines 142-145), whose catch branch answers **500** —
here on the non-empty address "x" with a throwing pipeline. -/
theorem walletHandler1_500_counterexample :
    (walletHandler1 (α := ℕ) (fun _ => none) "x" 0 25 0 (.error "boom")).status = 500 ∧
    strTrim "x" ≠ "" := by
  exact ⟨rfl, by decide⟩

/-- C3 amended: for the **second** program's `/wallet` and `/buys` handlers the
claim holds: the response status is 400 exactly on an empty (trimmed) address
and 200 for every other input, whatever the pipeline did — internal and
upstream failures are folded into degraded 200 payloads.  The first program's
handlers instead answer 500 when their try-body throws (see the
counterexample). -/
theorem handlers2_status :
    (∀ (jmap : String → Option TokenMeta) (env : PriceEnv) (address : String)
        (minUsd : ℚ) (mtParam : Option ℤ) (now : ℕ)
        (pipeline : Except String (ℚ × List RawToken)),
      (walletHandler2 jmap env address minUsd mtParam now pipeline).status =
        if strTrim address = "" then 400 else 200) ∧
    (∀ (jmap : String → Option TokenMeta) (env : PriceEnv) (address : String)
        (limitParam : Option ℤ) (minUsd : ℚ) (pipeline : Except String (List RawTx)),
      (buysHandler2 jmap env address limitParam minUsd pipeline).status =
        if strTrim address = "" then 400 else 200) := by
  constructor
  · intro jmap env address minUsd mtParam now pipeline
    unfold walletHandler2
    by_cases h : strTrim address = ""
    · simp [h]
    · rcases pipeline with ⟨sol, accounts⟩ | e <;> simp [h]
  · intro jmap env address limitParam minUsd pipeline
    unfold buysHandler2
    by_cases h : strTrim address = ""
    · simp [h]
    · cases hb : env.beKey <;> rcases pipeline with rows | e <;> simp [h, hb]

/-- C7 counterexample: the claim also covers part_000's `/buys` row filter
(its second program, the `rows` filter), which classifies by `side` alone:
the record `sellWithFlag` carries `side: "sell"` together with
`is_buy: true`, yet is excluded there — against the claimed OR semantics. -/
theorem buysP0_ignores_flag_counterexample :
    buysRowsP0 [sellWithFlag] = [] ∧ sellWithFlag.is_buy = some true ∧
      sellWithFlag.side = some "sell" := by
  refine ⟨by decide, rfl, rfl⟩

/-- C7 amended: the OR semantics over recognized signals holds for the
normalizer of the **first** program of src/index.js (lines 188-210): a record
with `side: "buy"` is a buy whatever its other fields; a record with
`side: "sell"` but `is_buy: true` is a buy; a record with neither signal is
classified as not a buy and excluded from the item list; part_000's variant
classifies by `side` alone (see the counterexample). -/
theorem isBuy_or_semantics :
    (∀ x : RawTrade, x.side = some "buy" → isBuyOf x = true) ∧
    (∀ x : RawTrade, x.side = some "sell" → x.is_buy = some true → isBuyOf x = true) ∧
    (∀ (x : RawTrade) (minUsd : ℚ) (limit : ℕ), x.side = none → x.is_buy = none →
      isBuyOf x = false ∧ buysItems1 minUsd limit [x] = []) := by
  refine ⟨?_, ?_, ?_⟩
  · intro x h
    have hside : sideOf x = "buy" := by
      simp only [sideOf, h]
      rw [if_pos (by decide : ("buy" : String) ≠ "")]
      decide
    simp [isBuyOf, hside]
  · intro x hs hb
    simp [isBuyOf, hb]
  · intro x minUsd limit hs hb
    have hside : sideOf x = "sell" := by
      simp only [sideOf, hs, hb]
      decide
    have hbuy : isBuyOf x = false := by
      simp [isBuyOf, hside, hb]
    refine ⟨hbuy, ?_⟩
    simp [buysItems1, normalize1, hbuy]

/-- C7 witness: a record whose only signal is `side: "buy"` is classified as a
buy by the first program's normalizer. -/
theorem isBuy_or_semantics_witness : isBuyOf sideBuyOnly = true :=
  isBuy_or_semantics.1 sideBuyOnly rfl

/-- C8: in the second program's `/buys` value filter (line 594), a normalized
record passes iff its usd value is absent (unknown value is never filtered
out) or at least `minUsd` — stated as a membership characterization of the
filtered list. -/
theorem buysValueFilter_iff (minUsd : ℚ) (l : List BuyRow) (b : BuyRow) :
    b ∈ l.filter (buysValueFilter minUsd) ↔
      b ∈ l ∧ (b.usd = none ∨ ∃ u, b.usd = some u ∧ minUsd ≤ u) := by
  rw [List.mem_filter]
  refine and_congr_right fun _ => ?_
  unfold buysValueFilter
  cases hu : b.usd with
  | none => simp
  | some u => simp

/-- C9 counterexample: the claim also covers the second program's `/wallet`
handler (src/index.js lines 433-524), which has **no** response cache — two
requests with identical address, minUsd and maxTokens parameters and identical
upstream data, issued one time-unit apart, are both recomputed and produce
different payloads (the fresh `updated` timestamp), so they are not
byte-identical and the second is not served from any cache. -/
theorem walletHandler2_no_cache_counterexample :
    walletHandler2 jmap0 env0 "x" 0 none 0 (.ok (0, [])) ≠
      walletHandler2 jmap0 env0 "x" 0 none 1 (.ok (0, [])) := by
  intro h
  have h2 := congrArg respUpdated h
  have e1 : respUpdated (walletHandler2 jmap0 env0 "x" 0 none 0 (.ok (0, []))) = 0 := rfl
  have e2 : respUpdated (walletHandler2 jmap0 env0 "x" 0 none 1 (.ok (0, []))) = 1 := rfl
  rw [e1, e2] at h2
  exact absurd h2 (by decide)

/-- C9 amended: the idempotence-via-cache property holds for the **first**
program's `/wallet` handler (src/index.js lines 59-146): when a request with a
non-empty address misses the cache and its computation succeeds, a second
request with identical parameters within the 10-second TTL is answered from
the cache with the identical payload, whatever its own computation would have
produced.  The second program's handler has no response cache and recomputes
every request (see the counterexample). -/
theorem walletHandler1_cache_idempotent {α : Type} (c : CacheMap α) (address : String)
    (minUsd : ℚ) (maxTokens : ℤ) (t1 t2 : ℕ) (snapData : α) (compute2 : Except String α)
    (haddr : strTrim address ≠ "")
    (hmiss : getCache1 c (strTrim address, minUsd, maxTokens) t1 10000 = none)
    (httl : t2 - t1 < 10000) :
    (walletHandler1
        (walletHandler1 c address minUsd maxTokens t1 (.ok snapData)).cache
        address minUsd maxTokens t2 compute2).body =
      (walletHandler1 c address minUsd maxTokens t1 (.ok snapData)).body ∧
    (walletHandler1
        (walletHandler1 c address minUsd maxTokens t1 (.ok snapData)).cache
        address minUsd maxTokens t2 compute2).fromCache = true ∧
    (walletHandler1 c address minUsd maxTokens t1 (.ok snapData)).status = 200 ∧
    (walletHandler1
        (walletHandler1 c address minUsd maxTokens t1 (.ok snapData)).cache
        address minUsd maxTokens t2 compute2).status = 200 := by
  have hhit : getCache1 (setCache1 c (strTrim address, minUsd, maxTokens) t1 snapData)
      (strTrim address, minUsd, maxTokens) t2 10000 = some snapData := by
    unfold getCache1 setCache1
    simp [httl]
  have h1 : walletHandler1 c address minUsd maxTokens t1 (.ok snapData) =
      ⟨200, .ok snapData,
        setCache1 c (strTrim address, minUsd, maxTokens) t1 snapData, false⟩ := by
    unfold walletHandler1
    rw [if_neg haddr]
    simp only [hmiss]
  have hcache : (walletHandler1 c address minUsd maxTokens t1 (.ok snapData)).cache =
      setCache1 c (strTrim address, minUsd, maxTokens) t1 snapData := by rw [h1]
  have h2 : walletHandler1
      (walletHandler1 c address minUsd maxTokens t1 (.ok snapData)).cache
      address minUsd maxTokens t2 compute2 = ⟨200, .ok snapData,
        setCache1 c (strTrim address, minUsd, maxTokens) t1 snapData, true⟩ := by
    rw [hcache]
    unfold walletHandler1
    rw [if_neg haddr]
    simp only [hhit]
  rw [h2, h1]
  exact ⟨rfl, rfl, rfl, rfl⟩

/-- C9 witness: concrete run — first request at t=0 (cache miss, computes 7),
second at t=5 with a failing computation, served from cache with the same body. -/
theorem walletHandler1_cache_idempotent_witness :
    (walletHandler1
        (walletHandler1 (α := ℕ) (fun _ => none) "x" 0 25 0 (.ok 7)).cache
        "x" 0 25 5 (.error "down")).body =
      (walletHandler1 (α := ℕ) (fun _ => none) "x" 0 25 0 (.ok 7)).body ∧
    (walletHandler1
        (walletHandler1 (α := ℕ) (fun _ => none) "x" 0 25 0 (.ok 7)).cache
        "x" 0 25 5 (.error "down")).fromCache = true ∧
    (walletHandler1 (α := ℕ) (fun _ => none) "x" 0 25 0 (.ok 7)).status = 200 ∧
    (walletHandler1
        (walletHandler1 (α := ℕ) (fun _ => none) "x" 0 25 0 (.ok 7)).cache
        "x" 0 25 5 (.error "down")).status = 200 :=
  walletHandler1_cache_idempotent (fun _ => none) "x" 0 25 0 5 7 (.error "down")
    (by decide) rfl (by decide)

/-- C10: the retry loop of `fetchJson` terminates after at most `retries + 1`
attempts (2 with the default `retries = 1`): the attempt count is between 1
and `retries + 1`, and the result is exactly the outcome of the last attempt
tried — the parsed body on success, or the last thrown error. -/
theorem fetchJson_attempt_bound (α : Type) (emptyObj : α)
    (attempts : ℕ → FetchAttempt α) (retries : ℕ) :
    1 ≤ (fetchJson emptyObj attempts retries).2 ∧
    (fetchJson emptyObj attempts retries).2 ≤ retries + 1 ∧
    (fetchJson emptyObj attempts retries).1 =
      attemptOutcome emptyObj (attempts ((fetchJson emptyObj attempts retries).2 - 1)) := by
  have h := fetchJsonGo_spec emptyObj attempts retries 0 (Nat.zero_le _)
  exact ⟨h.1, h.2.1, h.2.2⟩
